import Mathlib

/-!
Shallow embedding of the data-transform core of `src/app.py` (a Streamlit
subway-congestion dashboard).  Pandas DataFrame cells are modelled by `Val`
(missing / string / numeric), a wide table by its column list plus rows as
association lists, and the long table by `List LongRow`.  Python floats are
modelled by `ℚ`; `float('nan')` (the missing value) by `Option.none`.
Python's `\d` is modelled as ASCII digits and `float()` / `pd.to_numeric`
string conversion as a parser of optionally signed decimal literals, which is
the fragment exercised by the data and the spec.
-/

/-- A raw cell value: missing (None/NaN), a string, or a number. -/
inductive Val where
  | null : Val
  | vstr : String → Val
  | vnum : ℚ → Val
deriving DecidableEq, Repr

/-- Python `str.zfill`: left-pad with `'0'` up to width `w` (longer inputs
are returned unchanged). -/
def zfill (w : Nat) (s : List Char) : List Char :=
  List.replicate (w - s.length) '0' ++ s

/-- Numeric value of a list of ASCII digits (most significant first). -/
def digitsVal (l : List Char) : ℕ :=
  l.foldl (fun n c => 10 * n + (c.toNat - 48)) 0

/-- Model of Python `float(s)` / `pd.to_numeric` on a string, restricted to
optionally signed decimal literals: `sign? digits ["." digits]`, where at
least one digit must be present.  Returns `none` when conversion fails. -/
def parseFloat (s : List Char) : Option ℚ :=
  let (sign, t) : ℚ × List Char :=
    match s with
    | '-' :: t => (-1, t)
    | '+' :: t => (1, t)
    | _ => (1, s)
  let ip := t.takeWhile Char.isDigit
  match t.dropWhile Char.isDigit with
  | [] => if ip.isEmpty then none else some (sign * digitsVal ip)
  | '.' :: f =>
    let fp := f.takeWhile Char.isDigit
    if (f.dropWhile Char.isDigit).isEmpty && !(ip.isEmpty && fp.isEmpty) then
      some (sign * ((digitsVal ip : ℚ) + (digitsVal fp : ℚ) / ((10 ^ fp.length : ℕ) : ℚ)))
    else none
  | _ => none

/-- Python `str.strip()`: drop leading and trailing whitespace. -/
def pyStrip (s : List Char) : List Char :=
  ((s.dropWhile Char.isWhitespace).reverse.dropWhile Char.isWhitespace).reverse

/-- `clean_time_slot` on the underlying character list: match
`re.match(r'(\d+)시(\d+)분', s)` — a leading run of one or more digits,
the literal `시`, a run of one or more digits, the literal `분` (anything
may follow) — and on a match return `hour.zfill(2) ++ ":" ++ minute.zfill(2)`;
otherwise return the input unchanged.  The regex groups are the maximal
digit runs since `시`/`분` are not digits. -/
def cleanTimeSlotAux (s : List Char) : List Char :=
  let d1 := s.takeWhile Char.isDigit
  let r1 := s.dropWhile Char.isDigit
  if d1 ≠ [] ∧ r1.head? = some '시' then
    let d2 := r1.tail.takeWhile Char.isDigit
    let r2 := r1.tail.dropWhile Char.isDigit
    if d2 ≠ [] ∧ r2.head? = some '분' then
      zfill 2 d1 ++ ':' :: zfill 2 d2
    else s
  else s

/-- `clean_time_slot` from `src/app.py` (lines 192–210). -/
def clean_time_slot (s : String) : String :=
  String.mk (cleanTimeSlotAux s.data)

/-- `clean_congestion` from `src/app.py` (lines 213–239): missing stays
missing, strings are stripped (empty → missing) then converted to float
(failure → missing), numbers pass through unchanged. -/
def clean_congestion (v : Val) : Option ℚ :=
  match v with
  | .null => none
  | .vstr s =>
    let t := pyStrip s.data
    if t.isEmpty then none else parseFloat t
  | .vnum q => some q

/-- The five identifier columns of the wide table. -/
def id_cols : List String := ["요일구분", "호선", "역번호", "출발역", "상하구분"]

/-- A raw wide-table row: cell values keyed by column name. -/
abbrev RawRow := List (String × Val)

/-- Cell of a raw row at a column (missing when the column is absent). -/
def getVal (r : RawRow) (c : String) : Val :=
  match r.find? (fun p => p.1 = c) with
  | some p => p.2
  | none => Val.null

/-- A wide-format table: ordered column names and rows. -/
structure WideTable where
  cols : List String
  rows : List RawRow
deriving DecidableEq, Repr

/-- The value columns of the melt: every column that is not one of the five
identifier columns (`time_cols` in `transform_wide_to_long`). -/
def time_cols (df : WideTable) : List String :=
  df.cols.filter (fun c => !(id_cols.contains c))

/-- One observation of the long (tidy) table.  `station_id` is a nullable
integer (`Int64` with pandas' `<NA>`). -/
structure LongRow where
  day_type : Val
  line : Val
  station_id : Option ℤ
  station_name : Val
  direction : Val
  time_slot : String
  congestion : Option ℚ
deriving DecidableEq, Repr

/-- `pd.to_numeric(·, errors='coerce')` on one cell: numbers pass through,
numeric strings are parsed, everything else becomes missing. -/
def to_numeric (v : Val) : Option ℚ :=
  match v with
  | .null => none
  | .vnum q => some q
  | .vstr s => parseFloat (pyStrip s.data)

/-- `.astype('Int64')` on one coerced cell: a missing value becomes the
nullable `<NA>` (`some none`), an integral value becomes that integer, and a
non-integral value raises (`TypeError: cannot safely cast non-equivalent
float64 to int64`), modelled as `none`. -/
def astypeInt64 (q : Option ℚ) : Option (Option ℤ) :=
  match q with
  | none => some none
  | some q => if q.den = 1 then some (some q.num) else none

/-- The long row produced by the melt for raw row `r` and time column `c`,
after renaming, time-slot normalisation, congestion cleaning and
`station_id` coercion.  The `.join` collapses the cast's error case to a
junk missing value: `transform_wide_to_long` only exposes these rows when
`astypeInt64` succeeded on every row, so the error case is never reachable
from a produced table. -/
def mkLongRow (c : String) (r : RawRow) : LongRow :=
  { day_type := getVal r "요일구분"
    line := getVal r "호선"
    station_id := (astypeInt64 (to_numeric (getVal r "역번호"))).join
    station_name := getVal r "출발역"
    direction := getVal r "상하구분"
    time_slot := clean_time_slot c
    congestion := clean_congestion (getVal r c) }

/-- `pd.melt` row production: one block of output rows per value column (in
column order), each block containing one row per input row (in row order). -/
def melt (cs : List String) (rows : List RawRow) : List LongRow :=
  match cs with
  | [] => []
  | c :: cs => rows.map (mkLongRow c) ++ melt cs rows

/-- `transform_wide_to_long` from `src/app.py` (lines 242–285).  The two
error paths both abort the function with no partial result, modelled as
`none`: `pd.melt` raises `KeyError` when an `id_vars` column is absent from
the frame, and `astype('Int64')` at line 283 raises `TypeError` when some
cell of the melted `station_id` column coerces to a non-integral number.
Each raw row's station-id cell appears once per time column in the melted
frame, so the cast raises iff there is at least one time column and some raw
row's cell is non-castable (on an empty melted column the cast trivially
succeeds). -/
def transform_wide_to_long (df : WideTable) : Option (List LongRow) :=
  if id_cols.all (fun c => df.cols.contains c) then
    if (time_cols df).isEmpty
        || df.rows.all (fun r => (astypeInt64 (to_numeric (getVal r "역번호"))).isSome) then
      some (melt (time_cols df) df.rows)
    else none
  else none

/-- The post-load part of `load_and_process_data` (lines 341–361): reshape,
then drop the rows whose direction is one of the two loop codes
(`내선`/`외선`), keeping only 상행/하행. -/
def load_and_process (df : WideTable) : Option (List LongRow) :=
  (transform_wide_to_long df).map (fun l =>
    l.filter (fun x =>
      !(x.direction = Val.vstr "내선" ∨ x.direction = Val.vstr "외선")))

/-- `filter_data` from `src/app.py` (lines 368–395): equality on the four
identifier dimensions and an inclusive lexicographic range on `time_slot`. -/
def filter_data (df : List LongRow) (day_type line station direction : Val)
    (start_time end_time : String) : List LongRow :=
  df.filter (fun x =>
    x.day_type = day_type ∧ x.line = line ∧ x.station_name = station ∧
    x.direction = direction ∧ start_time ≤ x.time_slot ∧ x.time_slot ≤ end_time)

/-- The KPI triple of `calculate_kpis`. -/
structure KPIs where
  max_congestion : ℚ
  peak_time : String
  avg_congestion : ℚ
deriving DecidableEq, Repr

/-- `calculate_kpis` from `src/app.py` (lines 398–424): over the rows with a
non-missing congestion, the maximum, the `time_slot` of the first row
attaining it (`idxmax` returns the first maximising label), and the mean;
on an empty valid subset the fallback `(0.0, "N/A", 0.0)`. -/
def calculate_kpis (l : List LongRow) : KPIs :=
  let valid := l.filter (fun x => x.congestion.isSome)
  match valid with
  | [] => { max_congestion := 0, peak_time := "N/A", avg_congestion := 0 }
  | v :: vs =>
    let vals := (v :: vs).map (fun x => x.congestion.getD 0)
    let m := vals.foldl max (v.congestion.getD 0)
    { max_congestion := m
      peak_time :=
        ((v :: vs).find? (fun x => x.congestion.getD 0 = m)).elim "N/A"
          (fun x => x.time_slot)
      avg_congestion := vals.sum / vals.length }

/-- The quality-report record of `get_data_quality_report`. -/
structure QualityReport where
  total_records : ℕ
  total_missing : ℕ
  missing_pct : ℚ
  zero_count : ℕ
  zero_pct : ℚ
  min_congestion : Option ℚ
  max_congestion : Option ℚ
  mean_congestion : Option ℚ
  median_congestion : Option ℚ
  negative_count : ℕ
  over_100_count : ℕ
  unique_stations : ℕ
  unique_lines : ℕ
  unique_day_types : ℕ
deriving DecidableEq, Repr

/-- Median of a list of rationals in the pandas sense: middle element of the
sorted list, or the mean of the two middle elements for even length. -/
def qmedian (l : List ℚ) : ℚ :=
  let s := l.mergeSort (fun a b => a ≤ b)
  let n := l.length
  if n % 2 = 1 then s.getD (n / 2) 0
  else (s.getD (n / 2 - 1) 0 + s.getD (n / 2) 0) / 2

/-- `get_data_quality_report` from `src/app.py` (lines 288–338).  The two
percentage fields divide by `total_records`; `ℚ` division by zero yields `0`
where pandas would produce a NaN/inf on an empty table (no claim inspects
the percentages of an empty table). -/
def get_data_quality_report (df : List LongRow) : QualityReport :=
  let total := df.length
  let missing := (df.filter (fun x => x.congestion.isNone)).length
  let zeroCnt := (df.filter (fun x => x.congestion = some 0)).length
  let valid := df.filterMap (fun x => x.congestion)
  let base : QualityReport :=
    { total_records := total
      total_missing := missing
      missing_pct := (missing : ℚ) / (total : ℚ) * 100
      zero_count := zeroCnt
      zero_pct := (zeroCnt : ℚ) / (total : ℚ) * 100
      min_congestion := none
      max_congestion := none
      mean_congestion := none
      median_congestion := none
      negative_count := 0
      over_100_count := 0
      unique_stations := (df.map (fun x => x.station_name)).dedup.length
      unique_lines := (df.map (fun x => x.line)).dedup.length
      unique_day_types := (df.map (fun x => x.day_type)).dedup.length }
  match valid with
  | [] => base
  | v :: vs =>
    { base with
      min_congestion := some ((v :: vs).foldl min v)
      max_congestion := some ((v :: vs).foldl max v)
      mean_congestion := some ((v :: vs).sum / (v :: vs).length)
      median_congestion := some (qmedian (v :: vs))
      negative_count := ((v :: vs).filter (fun q => q < 0)).length
      over_100_count := ((v :: vs).filter (fun q => 100 < q)).length }

/-! ### Helper lemmas: the time-slot normaliser -/

lemma head?_decomp {α} {l : List α} {a : α} (h : l.head? = some a) :
    l = a :: l.tail := by
  cases l <;> simp_all

lemma takeWhile_middle {α} (p : α → Bool) (l : List α) (a : α) (t : List α)
    (hl : ∀ x ∈ l, p x = true) (ha : ¬ p a = true) :
    (l ++ a :: t).takeWhile p = l ∧ (l ++ a :: t).dropWhile p = a :: t := by
  induction l with
  | nil =>
    simp [List.takeWhile_cons_of_neg ha, List.dropWhile_cons_of_neg ha]
  | cons b bs ih =>
    have hb : p b = true := hl b (by simp)
    obtain ⟨h1, h2⟩ := ih (fun x hx => hl x (by simp [hx]))
    simp [List.takeWhile_cons_of_pos hb, List.dropWhile_cons_of_pos hb, h1, h2]

lemma cleanTimeSlotAux_match (d1 d2 rest : List Char)
    (h1 : d1 ≠ []) (h2 : d2 ≠ [])
    (hd1 : ∀ c ∈ d1, c.isDigit = true) (hd2 : ∀ c ∈ d2, c.isDigit = true) :
    cleanTimeSlotAux (d1 ++ '시' :: (d2 ++ '분' :: rest)) =
      zfill 2 d1 ++ ':' :: zfill 2 d2 := by
  have hsi : ¬ ('시' : Char).isDigit = true := by decide
  have hbun : ¬ ('분' : Char).isDigit = true := by decide
  obtain ⟨ht1, hr1⟩ :=
    takeWhile_middle Char.isDigit d1 '시' (d2 ++ '분' :: rest) hd1 hsi
  obtain ⟨ht2, hr2⟩ := takeWhile_middle Char.isDigit d2 '분' rest hd2 hbun
  simp only [cleanTimeSlotAux, ht1, hr1, List.head?_cons, List.tail_cons, ht2, hr2]
  simp [h1, h2]

lemma cleanTimeSlotAux_decomp (s : List Char)
    (h : cleanTimeSlotAux s ≠ s) :
    ∃ d1 d2 rest, s = d1 ++ '시' :: (d2 ++ '분' :: rest) ∧ d1 ≠ [] ∧ d2 ≠ [] ∧
      (∀ c ∈ d1, c.isDigit = true) ∧ (∀ c ∈ d2, c.isDigit = true) ∧
      cleanTimeSlotAux s = zfill 2 d1 ++ ':' :: zfill 2 d2 := by
  simp only [cleanTimeSlotAux] at h ⊢
  split_ifs at h ⊢ with hc1 hc2
  · obtain ⟨h1, hh1⟩ := hc1
    obtain ⟨h2, hh2⟩ := hc2
    refine ⟨s.takeWhile Char.isDigit,
      (s.dropWhile Char.isDigit).tail.takeWhile Char.isDigit,
      ((s.dropWhile Char.isDigit).tail.dropWhile Char.isDigit).tail,
      ?_, h1, h2, fun c hc => List.mem_takeWhile_imp hc,
      fun c hc => List.mem_takeWhile_imp hc, rfl⟩
    conv_lhs => rw [← List.takeWhile_append_dropWhile (p := Char.isDigit) (l := s)]
    rw [head?_decomp hh1]
    simp only [List.tail_cons]
    congr 1
    congr 1
    conv_lhs => rw [← List.takeWhile_append_dropWhile (p := Char.isDigit)
      (l := (s.dropWhile Char.isDigit).tail)]
    rw [head?_decomp hh2]
    simp only [List.tail_cons]
  · exact absurd rfl h
  · exact absurd rfl h

lemma cleanTimeSlotAux_nomatch (s : List Char)
    (h : ¬ ∃ d1 d2 rest, s = d1 ++ '시' :: (d2 ++ '분' :: rest) ∧ d1 ≠ [] ∧
      d2 ≠ [] ∧ (∀ c ∈ d1, c.isDigit = true) ∧ (∀ c ∈ d2, c.isDigit = true)) :
    cleanTimeSlotAux s = s := by
  by_contra hne
  obtain ⟨d1, d2, rest, he, h1, h2, hd1, hd2, _⟩ := cleanTimeSlotAux_decomp s hne
  exact h ⟨d1, d2, rest, he, h1, h2, hd1, hd2⟩

lemma zfill_length (w : ℕ) (s : List Char) : (zfill w s).length = max w s.length := by
  simp [zfill]
  omega

lemma mk_data_eq (s : String) : String.mk s.data = s := by
  cases s
  rfl

lemma clean_time_slot_match (s : String) (d1 d2 rest : List Char)
    (he : s.data = d1 ++ '시' :: (d2 ++ '분' :: rest)) (h1 : d1 ≠ []) (h2 : d2 ≠ [])
    (hd1 : ∀ c ∈ d1, c.isDigit = true) (hd2 : ∀ c ∈ d2, c.isDigit = true) :
    clean_time_slot s = String.mk (zfill 2 d1 ++ ':' :: zfill 2 d2) := by
  unfold clean_time_slot
  rw [he, cleanTimeSlotAux_match d1 d2 rest h1 h2 hd1 hd2]

/-! ### C8, C10, C3: the time-slot normaliser -/

/-- C8: `clean_time_slot` maps every label matching the anchored pattern
"one or more digits, `시`, one or more digits, `분`" to the colon-join of its
two digit groups zero-padded to width 2 (`zfill`), and returns every
non-matching label unchanged; in particular `"5시30분" ↦ "05:30"`,
`"12시0분" ↦ "12:00"` and `"garbage" ↦ "garbage"`. -/
theorem C8_time_slot_normalisation :
    (∀ (s : String) (d1 d2 rest : List Char),
        s.data = d1 ++ '시' :: (d2 ++ '분' :: rest) → d1 ≠ [] → d2 ≠ [] →
        (∀ c ∈ d1, c.isDigit = true) → (∀ c ∈ d2, c.isDigit = true) →
        clean_time_slot s = String.mk (zfill 2 d1 ++ ':' :: zfill 2 d2)) ∧
    (∀ s : String,
        (¬ ∃ d1 d2 rest, s.data = d1 ++ '시' :: (d2 ++ '분' :: rest) ∧ d1 ≠ [] ∧
          d2 ≠ [] ∧ (∀ c ∈ d1, c.isDigit = true) ∧ (∀ c ∈ d2, c.isDigit = true)) →
        clean_time_slot s = s) ∧
    clean_time_slot "5시30분" = "05:30" ∧
    clean_time_slot "12시0분" = "12:00" ∧
    clean_time_slot "garbage" = "garbage" := by
  refine ⟨fun s d1 d2 rest he h1 h2 hd1 hd2 =>
    clean_time_slot_match s d1 d2 rest he h1 h2 hd1 hd2, ?_, by decide, by decide,
    by decide⟩
  intro s h
  unfold clean_time_slot
  rw [cleanTimeSlotAux_nomatch s.data h, mk_data_eq]

/-- C10: matching is anchored only at the start of the label: a label that
begins with the `<digits>시<digits>분` pattern but has trailing characters is
normalised from the leading match with the trailing characters discarded
(the result is the same as for the label without the trailing characters),
not passed through unchanged; in particular `"5시30분 기준" ↦ "05:30"`. -/
theorem C10_match_anchored_at_start :
    clean_time_slot "5시30분 기준" = "05:30" ∧
    clean_time_slot "5시30분 기준" ≠ "5시30분 기준" ∧
    (∀ (s : String) (d1 d2 rest : List Char),
        s.data = d1 ++ '시' :: (d2 ++ '분' :: rest) → d1 ≠ [] → d2 ≠ [] →
        (∀ c ∈ d1, c.isDigit = true) → (∀ c ∈ d2, c.isDigit = true) →
        clean_time_slot s =
          clean_time_slot (String.mk (d1 ++ '시' :: (d2 ++ '분' :: [])))) := by
  refine ⟨by decide, by decide, fun s d1 d2 rest he h1 h2 hd1 hd2 => ?_⟩
  rw [clean_time_slot_match s d1 d2 rest he h1 h2 hd1 hd2,
    clean_time_slot_match (String.mk (d1 ++ '시' :: (d2 ++ '분' :: []))) d1 d2 []
      rfl h1 h2 hd1 hd2]

/-- C3 counterexample: on `"100시30분"` the pattern matches with a 3-digit
hour group, and `clean_time_slot` returns `"100:30"` — a 6-character string
that is neither exactly 5 characters long nor the input unchanged. -/
theorem C3_counterexample :
    ¬ ((clean_time_slot "100시30분").length = 5 ∨
       clean_time_slot "100시30분" = "100시30분") := by decide

/-- C3 amended: for every input string `s`, `clean_time_slot s` is either
`s` unchanged (when the `<digits>시<digits>분` pattern does not match) or the
colon-join of the two matched digit groups zero-padded to width at least 2;
the result then has at least 5 characters and is exactly 5 characters in
`HH:MM` form whenever both digit groups have at most two digits. -/
theorem C3_normalised_shape (s : String) :
    clean_time_slot s = s ∨
    ∃ d1 d2 rest, s.data = d1 ++ '시' :: (d2 ++ '분' :: rest) ∧ d1 ≠ [] ∧ d2 ≠ [] ∧
      (∀ c ∈ d1, c.isDigit = true) ∧ (∀ c ∈ d2, c.isDigit = true) ∧
      clean_time_slot s = String.mk (zfill 2 d1 ++ ':' :: zfill 2 d2) ∧
      5 ≤ (clean_time_slot s).length ∧
      (d1.length ≤ 2 → d2.length ≤ 2 → (clean_time_slot s).length = 5) := by
  by_cases h : cleanTimeSlotAux s.data = s.data
  · left
    unfold clean_time_slot
    rw [h, mk_data_eq]
  · right
    obtain ⟨d1, d2, rest, he, h1, h2, hd1, hd2, hres⟩ :=
      cleanTimeSlotAux_decomp s.data h
    have hcl : clean_time_slot s = String.mk (zfill 2 d1 ++ ':' :: zfill 2 d2) := by
      unfold clean_time_slot
      rw [hres]
    have hlen : (clean_time_slot s).length = max 2 d1.length + 1 + max 2 d2.length := by
      rw [hcl]
      simp [String.length, zfill_length]
      omega
    refine ⟨d1, d2, rest, he, h1, h2, hd1, hd2, hcl, ?_, ?_⟩
    · rw [hlen]
      have := Nat.le_max_left 2 d1.length
      have := Nat.le_max_left 2 d2.length
      omega
    · intro hl1 hl2
      rw [hlen, Nat.max_eq_left hl1, Nat.max_eq_left hl2]

/-! ### C5: the congestion normaliser -/

/-- C5: `clean_congestion` is total (models a function that never raises):
missing input stays missing, a string that is empty after stripping is
missing, a string whose numeric conversion fails is missing, a string that
parses yields its parsed value, and a numeric input is returned unmodified
with no clamping; in particular `" 42.5 " ↦ 42.5`, `"" ↦ missing`,
`"N/A" ↦ missing`, `(-3) ↦ -3`. -/
theorem C5_clean_congestion_total :
    (∀ q : ℚ, clean_congestion (Val.vnum q) = some q) ∧
    clean_congestion Val.null = none ∧
    (∀ s : String, pyStrip s.data = [] → clean_congestion (Val.vstr s) = none) ∧
    (∀ s : String, parseFloat (pyStrip s.data) = none →
        clean_congestion (Val.vstr s) = none) ∧
    (∀ (s : String) (q : ℚ), parseFloat (pyStrip s.data) = some q →
        clean_congestion (Val.vstr s) = some q) ∧
    clean_congestion (Val.vstr " 42.5 ") = some (85 / 2) ∧
    clean_congestion (Val.vstr "") = none ∧
    clean_congestion (Val.vstr "N/A") = none ∧
    clean_congestion (Val.vnum (-3)) = some (-3) := by
  refine ⟨fun q => rfl, rfl, ?_, ?_, ?_,
    by simp [clean_congestion, pyStrip, parseFloat, digitsVal]; norm_num,
    by rfl, by rfl, by rfl⟩
  · intro s h
    simp [clean_congestion, h]
  · intro s h
    simp only [clean_congestion]
    split_ifs with he
    · rfl
    · exact h
  · intro s q h
    have hne : ¬ (pyStrip s.data).isEmpty = true := by
      rw [List.isEmpty_iff]
      intro he
      rw [he] at h
      simp [parseFloat] at h
    simp only [clean_congestion]
    rw [if_neg hne]
    exact h

/-! ### C1, C7: the reshape -/

lemma melt_length (cs : List String) (rows : List RawRow) :
    (melt cs rows).length = cs.length * rows.length := by
  induction cs with
  | nil => simp [melt]
  | cons c cs ih =>
    simp [melt, ih]
    ring

lemma transform_succeeds (df : WideTable)
    (h : ∀ c ∈ id_cols, c ∈ df.cols)
    (hsid : ∀ r ∈ df.rows,
      (astypeInt64 (to_numeric (getVal r "역번호"))).isSome = true) :
    transform_wide_to_long df = some (melt (time_cols df) df.rows) := by
  have hA : id_cols.all (fun c => df.cols.contains c) = true := by
    rw [List.all_eq_true]
    intro c hc
    simpa using h c hc
  have hB : ((time_cols df).isEmpty
      || df.rows.all (fun r =>
        (astypeInt64 (to_numeric (getVal r "역번호"))).isSome)) = true := by
    rw [Bool.or_eq_true]
    exact Or.inr (List.all_eq_true.mpr hsid)
  unfold transform_wide_to_long
  rw [if_pos hA, if_pos hB]

/-- A non-integral rational, 3/2 = 1.5, built directly in reduced form. -/
def badRat : ℚ := Rat.mk' 3 2 (by decide) (by decide)

/-- A wide row whose five identifier cells are present but whose station-id
cell holds the non-integral number 1.5. -/
def badIdRow : RawRow :=
  [("요일구분", Val.vstr "평일"), ("호선", Val.vstr "2호선"), ("역번호", Val.vnum badRat),
   ("출발역", Val.vstr "강남"), ("상하구분", Val.vstr "상행"), ("5시30분", Val.vnum 10)]

/-- The wide table `badIdRow` lives in. -/
def badIdTable : WideTable :=
  ⟨["요일구분", "호선", "역번호", "출발역", "상하구분", "5시30분"], [badIdRow]⟩

/-- C1 counterexample: a one-row table with one time column and all five
identifier columns present, whose station-id cell is the non-integral 1.5 —
`astype('Int64')` raises, the reshape aborts, and no long table (of any row
count, in particular not `R × K = 1`) is produced. -/
theorem C1_counterexample :
    (∀ c ∈ id_cols, c ∈ badIdTable.cols) ∧
    badIdTable.rows.length = 1 ∧ (time_cols badIdTable).length = 1 ∧
    transform_wide_to_long badIdTable = none := by decide

/-- C1 amended: when the five identifier columns are all present and every
station-id cell survives the `Int64` cast (missing, non-numeric — coerced to
missing — or integral), the reshape succeeds and the long table has exactly
`R × K` rows, where `R` is the number of wide rows and `K` the number of
remaining (time-slot) columns; a non-integral station-id cell instead makes
the pipeline raise and produce nothing. -/
theorem C1_reshape_row_count (df : WideTable)
    (h : ∀ c ∈ id_cols, c ∈ df.cols)
    (hsid : ∀ r ∈ df.rows,
      (astypeInt64 (to_numeric (getVal r "역번호"))).isSome = true) :
    ∃ L, transform_wide_to_long df = some L ∧
      L.length = df.rows.length * (time_cols df).length := by
  refine ⟨melt (time_cols df) df.rows, transform_succeeds df h hsid, ?_⟩
  rw [melt_length]
  ring

/-- A concrete one-row wide table exercising the reshape. -/
def witRow1 : RawRow :=
  [("요일구분", Val.vstr "평일"), ("호선", Val.vstr "2호선"), ("역번호", Val.vnum 201),
   ("출발역", Val.vstr "강남"), ("상하구분", Val.vstr "상행"),
   ("5시30분", Val.vnum 10), ("6시00분", Val.vstr "20.5")]

/-- The wide table `witRow1` lives in. -/
def witTable : WideTable :=
  ⟨["요일구분", "호선", "역번호", "출발역", "상하구분", "5시30분", "6시00분"], [witRow1]⟩

theorem C1_witness :
    ∃ L, transform_wide_to_long witTable = some L ∧
      L.length = witTable.rows.length * (time_cols witTable).length :=
  C1_reshape_row_count witTable (by decide) (by decide)

/-- C7: if any of the five identifier columns is absent from the wide table,
the reshape aborts (models `pd.melt` raising `KeyError`) and produces no
partial result. -/
theorem C7_missing_id_col_aborts (df : WideTable)
    (h : ∃ c ∈ id_cols, c ∉ df.cols) :
    transform_wide_to_long df = none := by
  unfold transform_wide_to_long
  rw [if_neg]
  intro hall
  obtain ⟨c, hc, hnc⟩ := h
  rw [List.all_eq_true] at hall
  exact hnc (by simpa using hall c hc)

theorem C7_witness :
    transform_wide_to_long ⟨["호선", "5시30분"], [witRow1]⟩ = none :=
  C7_missing_id_col_aborts ⟨["호선", "5시30분"], [witRow1]⟩ (by decide)

/-! ### C9: the quality report on an all-missing table -/

/-- C9: on a long table in which every congestion value is missing, the
quality report leaves min/max/mean/median undefined (`none`) and reports
zero negative values and zero values over 100. -/
theorem C9_quality_report_all_missing (df : List LongRow)
    (h : ∀ x ∈ df, x.congestion = none) :
    (get_data_quality_report df).min_congestion = none ∧
    (get_data_quality_report df).max_congestion = none ∧
    (get_data_quality_report df).mean_congestion = none ∧
    (get_data_quality_report df).median_congestion = none ∧
    (get_data_quality_report df).negative_count = 0 ∧
    (get_data_quality_report df).over_100_count = 0 := by
  have hv : df.filterMap (fun x => x.congestion) = [] :=
    List.filterMap_eq_nil_iff.mpr h
  simp [get_data_quality_report, hv]

/-- A long row with missing congestion. -/
def witRow9 : LongRow :=
  ⟨Val.vstr "평일", Val.vstr "2호선", none, Val.vstr "강남", Val.vstr "상행",
   "05:30", none⟩

theorem C9_witness :
    (get_data_quality_report [witRow9]).min_congestion = none ∧
    (get_data_quality_report [witRow9]).max_congestion = none ∧
    (get_data_quality_report [witRow9]).mean_congestion = none ∧
    (get_data_quality_report [witRow9]).median_congestion = none ∧
    (get_data_quality_report [witRow9]).negative_count = 0 ∧
    (get_data_quality_report [witRow9]).over_100_count = 0 :=
  C9_quality_report_all_missing [witRow9] (by decide)

/-! ### C4: the loop directions and the base table -/

/-- A wide row whose direction is the loop code `내선`. -/
def loopRow : RawRow :=
  [("요일구분", Val.vstr "평일"), ("호선", Val.vstr "2호선"), ("역번호", Val.vnum 211),
   ("출발역", Val.vstr "성수"), ("상하구분", Val.vstr "내선"), ("5시30분", Val.vstr "10")]

/-- The wide table `loopRow` lives in. -/
def loopTable : WideTable :=
  ⟨["요일구분", "호선", "역번호", "출발역", "상하구분", "5시30분"], [loopRow]⟩

/-- C4 counterexample: for a raw table with one `내선` row the reshape keeps
the row, but the base table returned by the load-and-process pipeline is
empty — the pipeline itself drops the loop-direction rows, so the base table
does not retain all four direction codes. -/
theorem C4_counterexample :
    (transform_wide_to_long loopTable).map (fun l => l.map (fun x => x.direction)) =
      some [Val.vstr "내선"] ∧
    load_and_process loopTable = some [] := by decide

/-- C4 amended: the reshape (`transform_wide_to_long`) retains every
direction code present in the raw data, but `load_and_process_data` already
excludes the two loop codes `내선`/`외선` from the base table it returns:
its output is exactly the reshape output with those rows dropped, so the
exclusion happens in the load pipeline, not only in downstream views. -/
theorem C4_pipeline_excludes_loop_directions (df : WideTable) (L : List LongRow)
    (h : transform_wide_to_long df = some L) :
    load_and_process df =
      some (L.filter (fun x =>
        !(x.direction = Val.vstr "내선" ∨ x.direction = Val.vstr "외선"))) ∧
    ∀ x ∈ L,
      (x ∈ L.filter (fun x =>
          !(x.direction = Val.vstr "내선" ∨ x.direction = Val.vstr "외선")) ↔
        (x.direction ≠ Val.vstr "내선" ∧ x.direction ≠ Val.vstr "외선")) := by
  refine ⟨by simp [load_and_process, h], ?_⟩
  intro x hx
  rw [List.mem_filter]
  simp [hx]

theorem C4_witness :
    load_and_process loopTable =
      some ((melt (time_cols loopTable) loopTable.rows).filter (fun x =>
        !(x.direction = Val.vstr "내선" ∨ x.direction = Val.vstr "외선"))) ∧
    ∀ x ∈ melt (time_cols loopTable) loopTable.rows,
      (x ∈ (melt (time_cols loopTable) loopTable.rows).filter (fun x =>
          !(x.direction = Val.vstr "내선" ∨ x.direction = Val.vstr "외선")) ↔
        (x.direction ≠ Val.vstr "내선" ∧ x.direction ≠ Val.vstr "외선")) :=
  C4_pipeline_excludes_loop_directions loopTable
    (melt (time_cols loopTable) loopTable.rows) rfl

/-! ### C6: the KPI triple -/

lemma le_foldl_max (a : ℚ) (l : List ℚ) : a ≤ l.foldl max a := by
  induction l generalizing a with
  | nil => exact le_refl a
  | cons b t ih => exact le_trans (le_max_left a b) (ih (max a b))

lemma mem_le_foldl_max {x : ℚ} (a : ℚ) (l : List ℚ) (hx : x ∈ l) :
    x ≤ l.foldl max a := by
  induction l generalizing a with
  | nil => cases hx
  | cons b t ih =>
    rcases List.mem_cons.mp hx with rfl | hx'
    · exact le_trans (le_max_right a x) (le_foldl_max (max a x) t)
    · exact ih (max a b) hx'

lemma foldl_max_mem (a : ℚ) (l : List ℚ) : l.foldl max a = a ∨ l.foldl max a ∈ l := by
  induction l generalizing a with
  | nil => exact Or.inl rfl
  | cons b t ih =>
    rcases ih (max a b) with h | h
    · rcases max_choice a b with he | he
      · left
        rw [List.foldl_cons, h, he]
      · right
        rw [List.foldl_cons, h, he]
        exact List.mem_cons_self b t
    · right
      rw [List.foldl_cons]
      exact List.mem_cons_of_mem b h

lemma find?_decomp {α} (p : α → Bool) (l : List α) (x : α)
    (h : l.find? p = some x) :
    ∃ pre post, l = pre ++ x :: post ∧ (∀ y ∈ pre, p y = false) ∧ p x = true := by
  rw [List.find?_eq_some] at h
  obtain ⟨hp, pre, post, he, hpre⟩ := h
  exact ⟨pre, post, he, fun y hy => by simpa using hpre y hy, hp⟩

lemma isSome_eq_some_getD {o : Option ℚ} (h : o.isSome = true) :
    o = some (o.getD 0) := by
  cases o <;> simp_all

lemma calculate_kpis_cons (l : List LongRow) (v : LongRow) (vs : List LongRow)
    (hf : l.filter (fun x => x.congestion.isSome) = v :: vs) :
    calculate_kpis l =
      { max_congestion := ((v :: vs).map (fun x => x.congestion.getD 0)).foldl max
          (v.congestion.getD 0)
        peak_time := ((v :: vs).find? (fun x => x.congestion.getD 0 =
            ((v :: vs).map (fun x => x.congestion.getD 0)).foldl max
              (v.congestion.getD 0))).elim "N/A" (fun x => x.time_slot)
        avg_congestion := ((v :: vs).map (fun x => x.congestion.getD 0)).sum /
          (((v :: vs).map (fun x => x.congestion.getD 0)).length : ℚ) } := by
  simp only [calculate_kpis, hf]

/-- C6: `calculate_kpis` is total and NaN-free (it returns rationals and a
string): on a subset whose non-missing congestion rows are empty it returns
exactly the fallback `(0.0, "N/A", 0.0)`; otherwise `max_congestion` is
attained and is an upper bound of the non-missing values, `peak_time` is the
`time_slot` of the first row (in the subset's existing order) attaining the
maximum, and `avg_congestion` times the number of non-missing rows equals
their sum (the mean over non-missing values). -/
theorem C6_kpis_spec (l : List LongRow) :
    (l.filter (fun x => x.congestion.isSome) = [] →
      calculate_kpis l =
        { max_congestion := 0, peak_time := "N/A", avg_congestion := 0 }) ∧
    (l.filter (fun x => x.congestion.isSome) ≠ [] →
      (∃ x ∈ l.filter (fun x => x.congestion.isSome),
        x.congestion = some (calculate_kpis l).max_congestion) ∧
      (∀ x ∈ l, ∀ q, x.congestion = some q →
        q ≤ (calculate_kpis l).max_congestion) ∧
      (∃ x pre post,
        l.filter (fun y => y.congestion.isSome) = pre ++ x :: post ∧
        x.congestion = some (calculate_kpis l).max_congestion ∧
        (∀ y ∈ pre, ∀ q, y.congestion = some q →
          q < (calculate_kpis l).max_congestion) ∧
        (calculate_kpis l).peak_time = x.time_slot) ∧
      (calculate_kpis l).avg_congestion *
          ((l.filter (fun x => x.congestion.isSome)).length : ℚ) =
        ((l.filter (fun x => x.congestion.isSome)).map
          (fun x => x.congestion.getD 0)).sum) := by
  constructor
  · intro hf
    simp only [calculate_kpis, hf]
  · intro hne
    obtain ⟨v, vs, hf⟩ :
        ∃ v vs, l.filter (fun x => x.congestion.isSome) = v :: vs := by
      rcases hval : l.filter (fun x => x.congestion.isSome) with _ | ⟨v, vs⟩
      · exact absurd hval hne
      · exact ⟨v, vs, hval⟩
    have hk := calculate_kpis_cons l v vs hf
    set vals := (v :: vs).map (fun x => x.congestion.getD 0) with hvals
    set m := vals.foldl max (v.congestion.getD 0) with hm
    have hmax : (calculate_kpis l).max_congestion = m := by
      rw [hk]
    have hsome : ∀ x ∈ v :: vs, x.congestion.isSome = true := by
      intro x hx
      exact (List.mem_filter.mp (hf ▸ hx : x ∈ l.filter
        (fun x => x.congestion.isSome))).2
    have hmem : ∀ x ∈ v :: vs, x ∈ l := fun x hx =>
      (List.mem_filter.mp (hf ▸ hx : x ∈ l.filter
        (fun x => x.congestion.isSome))).1
    have hatt : ∃ x ∈ v :: vs, x.congestion = some m := by
      rcases foldl_max_mem (v.congestion.getD 0) vals with h0 | hmem'
      · refine ⟨v, List.mem_cons_self v vs, ?_⟩
        rw [hm, h0]
        exact isSome_eq_some_getD (hsome v (List.mem_cons_self v vs))
      · obtain ⟨x, hx, hxe⟩ := List.mem_map.mp hmem'
        refine ⟨x, hx, ?_⟩
        rw [← hm] at hxe
        rw [isSome_eq_some_getD (hsome x hx), hxe]
    have hub : ∀ x ∈ l, ∀ q, x.congestion = some q → q ≤ m := by
      intro x hx q hq
      have hxf : x ∈ v :: vs :=
        hf ▸ List.mem_filter.mpr ⟨hx, by simp [hq]⟩
      have hqv : q ∈ vals := by
        rw [hvals]
        exact List.mem_map.mpr ⟨x, hxf, by rw [hq]; rfl⟩
      exact mem_le_foldl_max _ _ hqv
    refine ⟨?_, ?_, ?_, ?_⟩
    · obtain ⟨x, hx, he⟩ := hatt
      exact ⟨x, hf ▸ hx, hmax ▸ he⟩
    · intro x hx q hq
      rw [hmax]
      exact hub x hx q hq
    · have hfindsome :
          ∃ x, (v :: vs).find? (fun y => y.congestion.getD 0 = m) = some x := by
        obtain ⟨x0, hx0, he0⟩ := hatt
        have hs : ((v :: vs).find? (fun y => y.congestion.getD 0 = m)).isSome := by
          rw [List.find?_isSome]
          exact ⟨x0, hx0, by simp [he0]⟩
        exact Option.isSome_iff_exists.mp hs
      obtain ⟨x, hfx⟩ := hfindsome
      obtain ⟨pre, post, hdecomp, hpre, hpx⟩ := find?_decomp _ _ _ hfx
      have hxv : x ∈ v :: vs := List.mem_of_find?_eq_some hfx
      have hxm : x.congestion.getD 0 = m := by simpa using hpx
      refine ⟨x, pre, post, hf.trans hdecomp, ?_, ?_, ?_⟩
      · rw [hmax, ← hxm]
        exact isSome_eq_some_getD (hsome x hxv)
      · intro y hy q hq
        have hyv : y ∈ v :: vs := by
          rw [hdecomp]
          exact List.mem_append_left _ hy
        have hyne : ¬ (y.congestion.getD 0 = m) := by simpa using hpre y hy
        have hle : q ≤ m := hub y (hmem y hyv) q hq
        have hgd : y.congestion.getD 0 = q := by
          rw [hq]
          rfl
        rw [hmax]
        exact lt_of_le_of_ne hle (fun he => hyne (by rw [hgd, he]))
      · rw [hk]
        simp [hfx]
    · rw [hk, hf]
      simp only [← hvals]
      have hlenq : (((v :: vs).length : ℕ) : ℚ) = ((vals.length : ℕ) : ℚ) := by
        rw [hvals, List.length_map]
      rw [hlenq]
      have hlen : ((vals.length : ℕ) : ℚ) ≠ 0 := by
        have hv1 : vals.length = vs.length + 1 := by simp [hvals]
        rw [hv1]
        exact_mod_cast Nat.succ_ne_zero vs.length
      exact div_mul_cancel₀ _ hlen

/-! ### C2: the reshape round-trip -/

/-- The four identifier values of a raw row that `filter_data` matches on. -/
def tupleOf (r : RawRow) : Val × Val × Val × Val :=
  (getVal r "요일구분", getVal r "호선", getVal r "출발역", getVal r "상하구분")

lemma bool_eq_of_iff {a b : Bool} (h : a = true ↔ b = true) : a = b := by
  cases a <;> cases b <;> simp_all

lemma filter_eq_singleton {α β : Type} [DecidableEq β] (f : α → β) (l : List α)
    (a : α) (ha : a ∈ l) (hnd : (l.map f).Nodup) :
    l.filter (fun x => f x = f a) = [a] := by
  induction l with
  | nil => cases ha
  | cons b t ih =>
    rw [List.map_cons, List.nodup_cons] at hnd
    obtain ⟨hb, ht⟩ := hnd
    rcases List.mem_cons.mp ha with rfl | hat
    · rw [List.filter_cons_of_pos (by simp)]
      have hnil : t.filter (fun x => f x = f a) = [] := by
        rw [List.filter_eq_nil_iff]
        intro x hx
        simp only [decide_eq_true_eq]
        exact fun he => hb (he ▸ List.mem_map_of_mem f hx)
      rw [hnil]
    · have hfb : ¬ (f b = f a) := fun he => hb (he ▸ List.mem_map_of_mem f hat)
      rw [List.filter_cons_of_neg (by simpa using hfb)]
      exact ih hat ht

lemma mem_melt {x : LongRow} {cs : List String} {rows : List RawRow}
    (hx : x ∈ melt cs rows) :
    ∃ c ∈ cs, ∃ r ∈ rows, x = mkLongRow c r := by
  induction cs with
  | nil => simp [melt] at hx
  | cons c cs ih =>
    simp only [melt] at hx
    rcases List.mem_append.mp hx with h | h
    · obtain ⟨r, hr, he⟩ := List.mem_map.mp h
      exact ⟨c, List.mem_cons_self c cs, r, hr, he.symm⟩
    · obtain ⟨c', hc', r, hr, he⟩ := ih h
      exact ⟨c', List.mem_cons_of_mem c hc', r, hr, he⟩

lemma filter_melt_eq (T : List String) (R : List RawRow) (p : LongRow → Bool)
    (c : String) (r : RawRow) (hc : c ∈ T) (hr : r ∈ R)
    (hp : ∀ c' ∈ T, ∀ r' ∈ R, (p (mkLongRow c' r') = true ↔
      (tupleOf r' = tupleOf r ∧ clean_time_slot c' = clean_time_slot c)))
    (hndr : (R.map tupleOf).Nodup)
    (hndc : (T.map clean_time_slot).Nodup) :
    (melt T R).filter p = [mkLongRow c r] := by
  induction T with
  | nil => cases hc
  | cons c0 T' ih =>
    rw [List.map_cons, List.nodup_cons] at hndc
    obtain ⟨hc0, hT'⟩ := hndc
    simp only [melt, List.filter_append]
    rcases List.mem_cons.mp hc with rfl | hcT'
    · have hblock1 : (R.map (mkLongRow c)).filter p = [mkLongRow c r] := by
        rw [List.filter_map]
        have hfc : R.filter (p ∘ mkLongRow c) =
            R.filter (fun r' => tupleOf r' = tupleOf r) := by
          apply List.filter_congr
          intro r' hr'
          apply bool_eq_of_iff
          rw [decide_eq_true_eq]
          exact (hp c (List.mem_cons_self c T') r' hr').trans (and_iff_left rfl)
        rw [hfc, filter_eq_singleton tupleOf R r hr hndr]
        rfl
      have hblock2 : (melt T' R).filter p = [] := by
        rw [List.filter_eq_nil_iff]
        intro x hx
        obtain ⟨c', hc', r', hr', rfl⟩ := mem_melt hx
        intro hpx
        obtain ⟨_, hcl⟩ := (hp c' (List.mem_cons_of_mem c hc') r' hr').mp hpx
        exact hc0 (hcl ▸ List.mem_map_of_mem clean_time_slot hc')
      rw [hblock1, hblock2, List.append_nil]
    · have hblock1 : (R.map (mkLongRow c0)).filter p = [] := by
        rw [List.filter_eq_nil_iff]
        intro x hx
        obtain ⟨r', hr', rfl⟩ := List.mem_map.mp hx
        intro hpx
        obtain ⟨_, hcl⟩ := (hp c0 (List.mem_cons_self c0 T') r' hr').mp hpx
        apply hc0
        rw [hcl]
        exact List.mem_map_of_mem clean_time_slot hcT'
      have hblock2 := ih hcT'
        (fun c' hc' r' hr' => hp c' (List.mem_cons_of_mem c0 hc') r' hr') hT'
      rw [hblock1, hblock2]
      rfl

/-- C2 amended: for a wide table whose five identifier columns are present,
whose station-id cells all survive the `Int64` cast (so the reshape does not
raise), whose rows have pairwise-distinct (day_type, line, station_name,
direction) identifier tuples, and whose time-slot columns have
pairwise-distinct normalised labels, filtering the reshaped table back to
the identifier values of a raw row `r` and the normalised time slot of a
column `c` yields exactly the one long row of that cell, whose congestion is
`clean_congestion` of the original cell — no information loss or
duplication.  (Without the distinctness conditions the filter can return
several copies, see the counterexample.) -/
theorem C2_reshape_round_trip (df : WideTable) (r : RawRow) (c : String)
    (hid : ∀ c' ∈ id_cols, c' ∈ df.cols)
    (hsid : ∀ r' ∈ df.rows,
      (astypeInt64 (to_numeric (getVal r' "역번호"))).isSome = true)
    (hr : r ∈ df.rows) (hc : c ∈ time_cols df)
    (hndr : (df.rows.map tupleOf).Nodup)
    (hndc : ((time_cols df).map clean_time_slot).Nodup) :
    ∃ L, transform_wide_to_long df = some L ∧
      filter_data L (getVal r "요일구분") (getVal r "호선") (getVal r "출발역")
        (getVal r "상하구분") (clean_time_slot c) (clean_time_slot c) =
        [mkLongRow c r] ∧
      (mkLongRow c r).congestion = clean_congestion (getVal r c) := by
  refine ⟨melt (time_cols df) df.rows, transform_succeeds df hid hsid, ?_, rfl⟩
  · unfold filter_data
    apply filter_melt_eq (time_cols df) df.rows _ c r hc hr ?_ hndr hndc
    intro c' hc' r' hr'
    rw [decide_eq_true_eq]
    constructor
    · rintro ⟨h1, h2, h3, h4, h5, h6⟩
      refine ⟨?_, le_antisymm h6 h5⟩
      simp only [mkLongRow] at h1 h2 h3 h4
      simp [tupleOf, Prod.ext_iff, h1, h2, h3, h4]
    · rintro ⟨ht, hcl⟩
      have h1 : getVal r' "요일구분" = getVal r "요일구분" := congrArg Prod.fst ht
      have h2 : getVal r' "호선" = getVal r "호선" :=
        congrArg (fun t => t.2.1) ht
      have h3 : getVal r' "출발역" = getVal r "출발역" :=
        congrArg (fun t => t.2.2.1) ht
      have h4 : getVal r' "상하구분" = getVal r "상하구분" :=
        congrArg (fun t => t.2.2.2) ht
      exact ⟨h1, h2, h3, h4, le_of_eq hcl.symm, le_of_eq hcl⟩

/-- A two-row wide table whose rows are identical. -/
def dupTable : WideTable :=
  ⟨["요일구분", "호선", "역번호", "출발역", "상하구분", "5시30분"], [witRow1, witRow1]⟩

/-- C2 counterexample: with two identical raw rows the reshape succeeds but
filtering back to one cell returns two rows, not exactly one — the claim
fails for wide tables with duplicated identifier tuples. -/
theorem C2_counterexample :
    ∃ L, transform_wide_to_long dupTable = some L ∧
      (filter_data L (Val.vstr "평일") (Val.vstr "2호선") (Val.vstr "강남")
        (Val.vstr "상행") "05:30" "05:30").length = 2 := by
  refine ⟨melt (time_cols dupTable) dupTable.rows, rfl, ?_⟩
  have hmelt : melt (time_cols dupTable) dupTable.rows =
      [mkLongRow "5시30분" witRow1, mkLongRow "5시30분" witRow1] := rfl
  rw [hmelt]
  simp only [filter_data]
  refine Eq.trans (congrArg List.length (List.filter_eq_self.mpr ?_)) rfl
  intro a ha
  have hxa : a = mkLongRow "5시30분" witRow1 := by
    rcases List.mem_cons.mp ha with h | h
    · exact h
    · simpa using h
  subst hxa
  simp only [decide_eq_true_eq]
  have hts : (mkLongRow "5시30분" witRow1).time_slot = "05:30" := rfl
  exact ⟨rfl, rfl, rfl, rfl, by rw [hts], by rw [hts]⟩

theorem C2_witness :
    ∃ L, transform_wide_to_long witTable = some L ∧
      filter_data L (getVal witRow1 "요일구분") (getVal witRow1 "호선")
        (getVal witRow1 "출발역") (getVal witRow1 "상하구분")
        (clean_time_slot "5시30분") (clean_time_slot "5시30분") =
        [mkLongRow "5시30분" witRow1] ∧
      (mkLongRow "5시30분" witRow1).congestion =
        clean_congestion (getVal witRow1 "5시30분") :=
  C2_reshape_round_trip witTable witRow1 "5시30분" (by decide) (by decide)
    (by decide) (by decide) (by decide) (by decide)
